import Mathlib

/-!
Shallow embedding of the caching and vote-coordination core of the Boult
Discord music bot (src/utils/cache.py, src/core/player.py, src/utils/tasks.py).

Timestamps (`time.monotonic()`) are modelled as `Int`; Python dicts as
association lists; `OrderedDict` / `lru.LRU` as association lists whose order
carries the insertion/recency information (head = oldest / least recently
used, tail = newest / most recently used).
-/

namespace Boult

/-! ### Association-list helpers (Python dict operations) -/

/-- Lookup of a key in an association list (first occurrence), modelling
`d[k]` / `k in d` on a Python dict. -/
def assocFind {K V : Type} [DecidableEq K] : List (K × V) → K → Option V
  | [], _ => none
  | (k', v) :: rest, k => if k' = k then some v else assocFind rest k

/-- Removal of a key from an association list, modelling `del d[k]` /
`d.pop(k, None)`.  A no-op when the key is absent. -/
def removeKey {K V : Type} [DecidableEq K] : List (K × V) → K → List (K × V)
  | [], _ => []
  | (k', v) :: rest, k =>
      if k' = k then removeKey rest k else (k', v) :: removeKey rest k

/-- Store `d[k] = v` on a Python dict: replaces the value in place when the
key is present (keeping its position), appends at the end otherwise. -/
def dictInsert {K V : Type} [DecidableEq K] : List (K × V) → K → V → List (K × V)
  | [], k, v => [(k, v)]
  | (k', v') :: rest, k, v =>
      if k' = k then (k, v) :: rest else (k', v') :: dictInsert rest k v

/-- Model of `d.setdefault(k, dflt)`: inserts `dflt` only when `k` is absent. -/
def dictSetdefault {K V : Type} [DecidableEq K] (l : List (K × V)) (k : K) (dflt : V) :
    List (K × V) :=
  match assocFind l k with
  | some _ => l
  | none => l ++ [(k, dflt)]

/-! ### CacheManager (src/utils/cache.py lines 41-140)

`CacheManager._cache` is an `lru.LRU(max_size)`: a bounded mapping whose
entries are `(value, float)` pairs.  `__getitem__` and `__setitem__` promote
the touched key to most-recently-used; inserting a fresh key at capacity
evicts the least-recently-used entry.  `lru.LRU` requires `max_size >= 1`
(`LRU(0)` raises `ValueError`), so the model carries `maxSize : Nat` used
with values `>= 1`. -/

structure CMState (V : Type) where
  /-- `self._cache`: key -> (value, float stamp); head = LRU, tail = MRU.
  `set` stores `time.monotonic() + expire` in the float field while the
  fetcher path of `get` stores `time.monotonic()` itself. -/
  cache : List (String × V × Int)
  /-- capacity handed to `LRU(max_size)` -/
  maxSize : Nat
  /-- `self._ttl` -/
  ttl : Int
  /-- `self._hits` -/
  hits : Nat
  /-- `self._misses` -/
  misses : Nat

/-- `CacheManager.__init__(max_size, ttl)`. -/
def cmInit (V : Type) (maxSize : Nat) (ttl : Int) : CMState V :=
  ⟨[], maxSize, ttl, 0, 0⟩

/-- Promotion of a present key to most-recently-used (the `lru.LRU`
read side effect of `self._cache[key]`). -/
def lruPromote {V : Type} (l : List (String × V × Int)) (k : String) :
    List (String × V × Int) :=
  match assocFind l k with
  | some p => removeKey l k ++ [(k, p)]
  | none => l

/-- `self._cache[key] = p` on an `lru.LRU`: an existing key is updated and
promoted; a fresh key evicts the least-recently-used entry when the store is
at capacity. -/
def lruInsert {V : Type} (l : List (String × V × Int)) (maxSize : Nat) (k : String)
    (p : V × Int) : List (String × V × Int) :=
  if (assocFind l k).isSome then removeKey l k ++ [(k, p)]
  else if maxSize ≤ l.length then l.tail ++ [(k, p)]
  else l ++ [(k, p)]

/-- Miss path of `CacheManager.get` (cache.py lines 80-97): count the miss,
then return `None` without a fetcher, or run the fetcher; a fetcher failure
is logged and re-raised with nothing stored, a fetched value is stored with
stamp `time.monotonic()` (taken after the fetch, here `tStore`). -/
def cmGetMiss {V E : Type} (st : CMState V) (k : String)
    (fetcher : Option (Except E V)) (tStore : Int) : CMState V × Except E (Option V) :=
  let st := { st with misses := st.misses + 1 }
  match fetcher with
  | none => (st, Except.ok none)
  | some (Except.error e) => (st, Except.error e)
  | some (Except.ok v) =>
      ({ st with cache := lruInsert st.cache st.maxSize k (v, tStore) }, Except.ok (some v))

/-- `CacheManager.get(key, fetcher)` (cache.py lines 58-97).  The fetcher is
modelled by its outcome `Except E V`; `tCheck` is `time.monotonic()` at the
expiry check, `tStore` at the store after the fetch.  The source reads the
stored float into a variable named `timestamp` and keeps the entry while
`time.monotonic() - timestamp <= self._ttl`; an entry failing that check is
deleted and the call falls through to the miss path.  (In the expired branch
the read-promotion followed by `del` nets to plain removal.) -/
def cmGet {V E : Type} (st : CMState V) (k : String) (fetcher : Option (Except E V))
    (tCheck tStore : Int) : CMState V × Except E (Option V) :=
  match assocFind st.cache k with
  | some (v, ts) =>
      if tCheck - ts ≤ st.ttl then
        ({ st with cache := lruPromote st.cache k, hits := st.hits + 1 },
          Except.ok (some v))
      else
        cmGetMiss { st with cache := removeKey st.cache k } k fetcher tStore
  | none => cmGetMiss st k fetcher tStore

/-- `CacheManager.set(key, value, expire)` (cache.py lines 99-103).  The
source computes `expire = expire or self._ttl`, so both `None` and the falsy
`0` fall back to the default TTL; the entry's float field is then set to
`time.monotonic() + expire`, i.e. an absolute expiration time. -/
def cmSet {V : Type} (st : CMState V) (k : String) (v : V) (expire : Option Int)
    (now : Int) : CMState V :=
  let e := match expire with
    | some x => if x = 0 then st.ttl else x
    | none => st.ttl
  { st with cache := lruInsert st.cache st.maxSize k (v, now + e) }

/-- `CacheManager.cleanup_expired()` (cache.py lines 128-133): drops every
entry whose stored float, read here as an expiry, satisfies `now > expiry`.
Note the contrast with `get`, which reads the same float as an insertion
timestamp. -/
def cmCleanupExpired {V : Type} (st : CMState V) (now : Int) : CMState V :=
  { st with cache := st.cache.filter (fun kv => ¬ now > kv.2.2) }

/-! ### TTLCache (src/utils/cache.py lines 142-339)

`TTLCache` keeps two maps: `self._cache`, an `OrderedDict` from key to value
whose order realises LRU (oldest first), and `self._expires`, a plain dict
from key to absolute expiry time. -/

structure TCState (K V : Type) where
  /-- `self._cache` (`OrderedDict`): head = oldest / least recently used. -/
  cache : List (K × V)
  /-- `self._expires`: key -> absolute expiry (`time.monotonic() + ttl`). -/
  expires : List (K × Int)
  /-- `self._ttl` -/
  ttl : Int
  /-- `self._max_size` (`None` for unlimited) -/
  maxSize : Option Nat
  /-- `self._cleanup_interval` -/
  cleanupInterval : Int
  /-- `self._last_cleanup` -/
  lastCleanup : Int

/-- `TTLCache.__init__(ttl, max_size, cleanup_interval)`; `t0` is
`time.monotonic()` at construction. -/
def tcInit (K V : Type) (ttl : Int) (maxSize : Option Nat) (cleanupInterval : Int)
    (t0 : Int) : TCState K V :=
  ⟨[], [], ttl, maxSize, cleanupInterval, t0⟩

/-- `TTLCache._is_expired(key)` (lines 297-299): `time.monotonic() >=
self._expires[key]`.  The source indexes `self._expires` directly and would
raise `KeyError` on an absent key; it is only ever called on keys present in
`self._cache`, and every such key is also in `self._expires`, so the `none`
arm below is unreachable in the modelled call sites. -/
def tcIsExpired {K V : Type} [DecidableEq K] (st : TCState K V) (k : K) (now : Int) :
    Bool :=
  match assocFind st.expires k with
  | some e => now ≥ e
  | none => false

/-- `TTLCache._remove(key)` (lines 301-304): deletes the key from both maps. -/
def tcRemove {K V : Type} [DecidableEq K] (st : TCState K V) (k : K) : TCState K V :=
  { st with cache := removeKey st.cache k, expires := removeKey st.expires k }

/-- `TTLCache.cleanup()` (lines 250-262): collects the expired keys of
`self._cache` and `_remove`s each, returning how many entries were dropped.
Iterated `_remove` over distinct keys equals the joint filter below. -/
def tcCleanup {K V : Type} [DecidableEq K] (st : TCState K V) (now : Int) :
    TCState K V × Nat :=
  let expired := (st.cache.map Prod.fst).filter (fun k => tcIsExpired st k now)
  let st' := { st with
    cache := st.cache.filter (fun kv => decide (kv.1 ∉ expired)),
    expires := st.expires.filter (fun ke => decide (ke.1 ∉ expired)) }
  (st', st.cache.length - st'.cache.length)

/-- `TTLCache._maybe_cleanup()` (lines 306-311): runs `cleanup` and resets
`self._last_cleanup` once `cleanup_interval` has elapsed. -/
def tcMaybeCleanup {K V : Type} [DecidableEq K] (st : TCState K V) (now : Int) :
    TCState K V :=
  if now - st.lastCleanup ≥ st.cleanupInterval then
    { (tcCleanup st now).1 with lastCleanup := now }
  else st

/-- `TTLCache.get(key, default=None)` (lines 174-198): after a possible
periodic cleanup, an absent key yields the default (modelled `none`), an
expired key is `_remove`d and yields the default, and a live key is popped
and re-appended (promoted to most recently used) and returned. -/
def tcGet {K V : Type} [DecidableEq K] (st : TCState K V) (k : K) (now : Int) :
    TCState K V × Option V :=
  let st := tcMaybeCleanup st now
  match assocFind st.cache k with
  | none => (st, none)
  | some v =>
      if tcIsExpired st k now then (tcRemove st k, none)
      else ({ st with cache := removeKey st.cache k ++ [(k, v)] }, some v)

/-- Eviction step of `TTLCache.set` (lines 212-214).  The guard is
`if self._max_size and len(self._cache) >= self._max_size`, so both `None`
and the falsy `0` skip eviction; `popitem(last=False)` drops the oldest
entry from `self._cache` only, leaving `self._expires` untouched. -/
def tcEvict {K V : Type} (st : TCState K V) : TCState K V :=
  match st.maxSize with
  | some m =>
      if m ≠ 0 ∧ st.cache.length ≥ m then { st with cache := st.cache.tail } else st
  | none => st

/-- Store step of `TTLCache.set` (lines 216-221): `del self._cache[key]`
when present, append the new entry at the most-recently-used end, and record
the expiry `time.monotonic() + (ttl if ttl is not None else self._ttl)` (a
real `None` test, so a `0` TTL argument counts). -/
def tcStore {K V : Type} [DecidableEq K] (st : TCState K V) (k : K) (v : V)
    (ttlArg : Option Int) (now : Int) : TCState K V :=
  { st with cache := removeKey st.cache k ++ [(k, v)],
            expires := dictInsert st.expires k (now + ttlArg.getD st.ttl) }

/-- `TTLCache.set(key, value, ttl=None)` (lines 200-221): possible periodic
cleanup, then eviction, then the store. -/
def tcSet {K V : Type} [DecidableEq K] (st : TCState K V) (k : K) (v : V)
    (ttlArg : Option Int) (now : Int) : TCState K V :=
  tcStore (tcEvict (tcMaybeCleanup st now)) k v ttlArg now

/-- `TTLCache.size()` (lines 245-248): `len(self._cache)`. -/
def tcSize {K V : Type} (st : TCState K V) : Nat :=
  st.cache.length

/-- `TTLCache.get_ttl(key)` (lines 281-295): remaining TTL read from
`self._expires` alone (no cleanup, no check of `self._cache`). -/
def tcGetTtl {K V : Type} [DecidableEq K] (st : TCState K V) (k : K) (now : Int) :
    Option Int :=
  match assocFind st.expires k with
  | some e =>
      let remain := e - now
      if remain > 0 then some (max 0 remain) else none
  | none => none

/-- Folding a sequence of `set` calls, each given as
`(key, value, ttl argument, time of the call)`. -/
def tcApplySets {K V : Type} [DecidableEq K] (st : TCState K V) :
    List (K × V × Option Int × Int) → TCState K V
  | [] => st
  | (k, v, t, now) :: rest => tcApplySets (tcSet st k v t now) rest

/-! ### Vote tallies (src/core/player.py lines 142-182 and 229-259)

`Player` keeps `self.skip_votes` and `self.previous_votes`, each a dict from
guild id to the list of user ids that voted.  The fragments modelled here
are the voting paths of `Player.next` and `Player.previous`, reached after
the DJ/permission shortcuts; the quorum (`needed_votes = len([m for m in
self.channel.members if not m.bot])`) is computed by the caller's context
and passed in as `neededVotes`. -/

structure PlayerVotes where
  /-- `self.skip_votes` : guild id -> voter ids. -/
  skipVotes : List (Nat × List Nat)
  /-- `self.previous_votes` : guild id -> voter ids. -/
  previousVotes : List (Nat × List Nat)
deriving DecidableEq, Repr

/-- Observable outcome of one voting call: `alreadyVoted` stands for the
"Already voted" embed, `currentCount` for the reported `total_votes`, and
`thresholdMet` for the quorum branch being taken (`self.stop()` in `next`,
`self.play(track)` in `previous`). -/
structure VoteOutcome where
  alreadyVoted : Bool
  currentCount : Nat
  thresholdMet : Bool
deriving DecidableEq, Repr

/-- Voting path of `Player.next` (player.py lines 142-182):
`setdefault(guild_id, [])`, the duplicate check, `append(user_id)`, and the
`total_votes >= needed_votes` quorum branch, which stops the track but does
NOT clear `self.skip_votes[guild_id]`. -/
def castSkipVote (st : PlayerVotes) (guildId userId neededVotes : Nat) :
    PlayerVotes × VoteOutcome :=
  let votes := dictSetdefault st.skipVotes guildId []
  let tally := (assocFind votes guildId).getD []
  if userId ∈ tally then
    ({ st with skipVotes := votes }, ⟨true, tally.length, false⟩)
  else
    let tally' := tally ++ [userId]
    let votes' := dictInsert votes guildId tally'
    if tally'.length ≥ neededVotes then
      ({ st with skipVotes := votes' }, ⟨false, tally'.length, true⟩)
    else
      ({ st with skipVotes := votes' }, ⟨false, tally'.length, false⟩)

/-- Voting path of `Player.previous` (player.py lines 229-259): identical to
the skip path except that on quorum the source executes
`self.previous_votes[guild_id] = []` ("Reset votes after successful vote"). -/
def castPreviousVote (st : PlayerVotes) (guildId userId neededVotes : Nat) :
    PlayerVotes × VoteOutcome :=
  let votes := dictSetdefault st.previousVotes guildId []
  let tally := (assocFind votes guildId).getD []
  if userId ∈ tally then
    ({ st with previousVotes := votes }, ⟨true, tally.length, false⟩)
  else
    let tally' := tally ++ [userId]
    let votes' := dictInsert votes guildId tally'
    if tally'.length ≥ neededVotes then
      ({ st with previousVotes := dictInsert votes' guildId [] },
        ⟨false, tally'.length, true⟩)
    else
      ({ st with previousVotes := votes' }, ⟨false, tally'.length, false⟩)

/-- The two vote kinds of the player. -/
inductive VoteKind
  | skip
  | previous
deriving DecidableEq, Repr

/-- Dispatch of a vote to the tally of its kind. -/
def castVote (kind : VoteKind) (st : PlayerVotes) (guildId userId neededVotes : Nat) :
    PlayerVotes × VoteOutcome :=
  match kind with
  | .skip => castSkipVote st guildId userId neededVotes
  | .previous => castPreviousVote st guildId userId neededVotes

/-- The tally of a (guild, vote kind) pair, an absent guild reading as the
empty tally (matching `setdefault(guild_id, [])`). -/
def tallyOf (st : PlayerVotes) (kind : VoteKind) (g : Nat) : List Nat :=
  match kind with
  | .skip => (assocFind st.skipVotes g).getD []
  | .previous => (assocFind st.previousVotes g).getD []

/-- The guild-id-free initial vote state of `Player.__init__`. -/
def emptyVotes : PlayerVotes :=
  ⟨[], []⟩

/-! ### TimedTask (src/utils/tasks.py lines 50-133)

Awaited coroutines are modelled by their outcomes: `Except E Unit` is one
awaited call that either returns or raises `e`. -/

/-- One iteration of the cleanup loop of `TimedTask._run_task` (tasks.py
lines 110-114): the callback is awaited inside its own `try/except
Exception`, so a failure is logged (returned here) instead of escaping. -/
def runOneCallback {E : Type} (cb : Except E Unit) : List E :=
  match cb with
  | Except.ok _ => []
  | Except.error e => [e]

/-- The `finally` block of `TimedTask._run_task`: every cleanup callback is
run in order, each guarded by `runOneCallback`; the loop itself cannot
raise.  Returns (number of callbacks awaited, errors logged, in order). -/
def runCleanupCallbacks {E : Type} : List (Except E Unit) → Nat × List E
  | [] => (0, [])
  | cb :: rest =>
      let r := runCleanupCallbacks rest
      (1 + r.1, runOneCallback cb ++ r.2)

/-- `TimedTask._execute_with_retries` (tasks.py lines 71-86) on the list of
successive outcomes of `self.task_function()` (one per attempt, of length
`max_retries + 1`): each failing attempt is caught and the next one runs;
only the failure of the final attempt is re-raised.  The `[]` arm is
unreachable since at least one attempt always runs. -/
def executeWithRetries {E : Type} : List (Except E Unit) → Except E Unit
  | [] => Except.ok ()
  | [a] => a
  | a :: rest =>
      match a with
      | Except.ok _ => Except.ok ()
      | Except.error _ => executeWithRetries rest

/-- The try/finally body of `TimedTask._run_task` (tasks.py lines 98-114):
the task body runs with retries, and the cleanup callbacks then run
unconditionally; because each callback is individually guarded, the
`finally` block completes normally and the task's outcome is exactly the
body's outcome. -/
def runTimedTask {E : Type} (attempts cbs : List (Except E Unit)) :
    Except E Unit × Nat × List E :=
  (executeWithRetries attempts, runCleanupCallbacks cbs)

/-- `TimedTask._handle_task_completion` (tasks.py lines 121-125): retrieves
the task's result and logs an exception instead of re-raising it, so a
failed task never propagates into the scheduler. -/
def handleTaskCompletion {E : Type} (r : Except E Unit) : Option E :=
  match r with
  | Except.ok _ => none
  | Except.error e => some e

/-! ### Concrete states used by the scenario theorems -/

/-- A `CacheManager(max_size=10, ttl=3600)` after `set("k", 7, expire=10)`
at time 0: the stored float is the expiration time `0 + 10`. -/
def cmExpiredDemo : CMState Nat :=
  cmSet (cmInit Nat 10 3600) "k" 7 (some 10) 0

/-- A `CacheManager(max_size=10, ttl=3600)` after `set("k", 7, expire=0)`
at time 0. -/
def cmZeroTtlDemo : CMState Nat :=
  cmSet (cmInit Nat 10 3600) "k" 7 (some 0) 0

/-- A `TTLCache(ttl=300, max_size=0)` after `set("a", 1)` and `set("b", 2)`
at time 0. -/
def tcZeroMaxDemo : TCState String Nat :=
  tcApplySets (tcInit String Nat 300 (some 0) 60 0) [("a", 1, none, 0), ("b", 2, none, 0)]

/-- A `TTLCache(ttl=300, max_size=2)` after the spec's LRU scenario
`set(a,1); set(b,2); get(a); set(c,3)`, all at time 0. -/
def tcLruDemo : TCState String Nat :=
  tcSet (tcGet (tcSet (tcSet (tcInit String Nat 300 (some 2) 60 0)
    "a" 1 none 0) "b" 2 none 0) "a" 0).1 "c" 3 none 0

/-- A full `TTLCache(ttl=300, max_size=1)` holding `"a"` (expiry 300),
about to evict on the next `set`. -/
def tcEvictDemo : TCState String Nat :=
  ⟨[("a", 1)], [("a", 300)], 300, some 1, 60, 0⟩

/-- A vote state where user 5 has already voted to skip in guild 1. -/
def dupVoteDemo : PlayerVotes :=
  ⟨[(1, [5])], []⟩

/-! ### Association-list lemmas -/

theorem assocFind_cons {K V : Type} [DecidableEq K] (k' : K) (v : V)
    (rest : List (K × V)) (k : K) :
    assocFind ((k', v) :: rest) k = if k' = k then some v else assocFind rest k :=
  rfl

theorem assocFind_append_none {K V : Type} [DecidableEq K] {l1 : List (K × V)} {k : K}
    (l2 : List (K × V)) (h : assocFind l1 k = none) :
    assocFind (l1 ++ l2) k = assocFind l2 k := by
  induction l1 with
  | nil => rfl
  | cons kv rest ih =>
    obtain ⟨k', v⟩ := kv
    rw [List.cons_append, assocFind_cons]
    rw [assocFind_cons] at h
    by_cases hk : k' = k
    · rw [if_pos hk] at h; exact absurd h (by simp)
    · rw [if_neg hk] at h ⊢; exact ih h

theorem assocFind_append_some {K V : Type} [DecidableEq K] {l1 : List (K × V)} {k : K}
    {v : V} (l2 : List (K × V)) (h : assocFind l1 k = some v) :
    assocFind (l1 ++ l2) k = some v := by
  induction l1 with
  | nil => exact absurd h (by simp [assocFind])
  | cons kv rest ih =>
    obtain ⟨k', v'⟩ := kv
    rw [List.cons_append, assocFind_cons]
    rw [assocFind_cons] at h
    by_cases hk : k' = k
    · rwa [if_pos hk] at h ⊢
    · rw [if_neg hk] at h ⊢; exact ih h

theorem assocFind_removeKey_self {K V : Type} [DecidableEq K] (l : List (K × V))
    (k : K) : assocFind (removeKey l k) k = none := by
  induction l with
  | nil => rfl
  | cons kv rest ih =>
    obtain ⟨k', v⟩ := kv
    by_cases hk : k' = k
    · simpa [removeKey, hk] using ih
    · simpa [removeKey, hk, assocFind_cons] using ih

theorem assocFind_removeKey_ne {K V : Type} [DecidableEq K] (l : List (K × V))
    {k k' : K} (h : k' ≠ k) : assocFind (removeKey l k) k' = assocFind l k' := by
  induction l with
  | nil => rfl
  | cons kv rest ih =>
    obtain ⟨k₁, v⟩ := kv
    by_cases hk : k₁ = k
    · have hne : ¬ k₁ = k' := fun hh => h (hh.symm.trans hk)
      have hne' : ¬ k = k' := fun hh => h hh.symm
      simp [removeKey, hk, assocFind_cons, hne, hne', ih]
    · simp [removeKey, hk, assocFind_cons, ih]

theorem assocFind_dictInsert_self {K V : Type} [DecidableEq K] (l : List (K × V))
    (k : K) (v : V) : assocFind (dictInsert l k v) k = some v := by
  induction l with
  | nil => simp [dictInsert, assocFind_cons]
  | cons kv rest ih =>
    obtain ⟨k', v'⟩ := kv
    by_cases hk : k' = k
    · simp [dictInsert, hk, assocFind_cons]
    · simpa [dictInsert, hk, assocFind_cons] using ih

theorem assocFind_dictInsert_ne {K V : Type} [DecidableEq K] (l : List (K × V))
    {k k' : K} (v : V) (h : k' ≠ k) :
    assocFind (dictInsert l k v) k' = assocFind l k' := by
  have hne : ¬ k = k' := fun hh => h hh.symm
  induction l with
  | nil => simp [dictInsert, assocFind_cons, hne, assocFind]
  | cons kv rest ih =>
    obtain ⟨k₁, v₁⟩ := kv
    by_cases hk : k₁ = k
    · have hne₁ : ¬ k₁ = k' := fun hh => h (hh.symm.trans hk)
      simp [dictInsert, hk, assocFind_cons, hne, hne₁]
    · simp [dictInsert, hk, assocFind_cons, ih]

theorem dictInsert_of_absent {K V : Type} [DecidableEq K] {l : List (K × V)} {k : K}
    (v : V) (h : assocFind l k = none) : dictInsert l k v = l ++ [(k, v)] := by
  induction l with
  | nil => rfl
  | cons kv rest ih =>
    obtain ⟨k', v'⟩ := kv
    rw [assocFind_cons] at h
    by_cases hk : k' = k
    · rw [if_pos hk] at h; exact absurd h (by simp)
    · rw [if_neg hk] at h
      simp [dictInsert, hk, ih h]

theorem assocFind_filter_of_false {K V : Type} [DecidableEq K] {p : K × V → Bool}
    {k : K} (l : List (K × V)) (h : ∀ v, p (k, v) = false) :
    assocFind (l.filter p) k = none := by
  induction l with
  | nil => rfl
  | cons kv rest ih =>
    obtain ⟨k', v⟩ := kv
    by_cases hk : k' = k
    · subst hk
      rw [List.filter_cons, h v]
      exact ih
    · rw [List.filter_cons]
      cases hp : p (k', v) with
      | false => simpa using ih
      | true => simpa [assocFind_cons, hk] using ih

theorem assocFind_filter_none {K V : Type} [DecidableEq K] {l : List (K × V)} {k : K}
    (p : K × V → Bool) (h : assocFind l k = none) :
    assocFind (l.filter p) k = none := by
  induction l with
  | nil => rfl
  | cons kv rest ih =>
    obtain ⟨k', v⟩ := kv
    rw [assocFind_cons] at h
    by_cases hk : k' = k
    · rw [if_pos hk] at h; exact absurd h (by simp)
    · rw [if_neg hk] at h
      rw [List.filter_cons]
      cases hp : p (k', v) with
      | false => exact ih h
      | true => simpa [assocFind_cons, hk] using ih h

theorem assocFind_of_not_mem_keys {K V : Type} [DecidableEq K] {l : List (K × V)}
    {k : K} (h : k ∉ l.map Prod.fst) : assocFind l k = none := by
  induction l with
  | nil => rfl
  | cons kv rest ih =>
    obtain ⟨k', v⟩ := kv
    simp only [List.map_cons, List.mem_cons] at h
    push_neg at h
    rw [assocFind_cons, if_neg (fun hh => h.1 hh.symm)]
    exact ih h.2

theorem mem_keys_of_assocFind_some {K V : Type} [DecidableEq K] {l : List (K × V)}
    {k : K} {v : V} (h : assocFind l k = some v) : k ∈ l.map Prod.fst := by
  induction l with
  | nil => exact absurd h (by simp [assocFind])
  | cons kv rest ih =>
    obtain ⟨k', v'⟩ := kv
    rw [assocFind_cons] at h
    by_cases hk : k' = k
    · simp [hk]
    · rw [if_neg hk] at h
      simp [ih h]

theorem removeKey_length_le {K V : Type} [DecidableEq K] (l : List (K × V)) (k : K) :
    (removeKey l k).length ≤ l.length := by
  induction l with
  | nil => simp [removeKey]
  | cons kv rest ih =>
    obtain ⟨k₁, v⟩ := kv
    by_cases hk : k₁ = k
    · simp only [removeKey, hk, if_pos]
      exact Nat.le_succ_of_le ih
    · simp only [removeKey, hk, if_neg, not_false_iff, List.length_cons]
      exact Nat.succ_le_succ ih

/-! ### Structural lemmas about the TTLCache operations -/

theorem tcMaybeCleanup_of_recent {K V : Type} [DecidableEq K] {st : TCState K V}
    {now : Int} (h : now - st.lastCleanup < st.cleanupInterval) :
    tcMaybeCleanup st now = st := by
  unfold tcMaybeCleanup
  rw [if_neg (not_le.mpr h)]

theorem tcMaybeCleanup_maxSize {K V : Type} [DecidableEq K] (st : TCState K V)
    (now : Int) : (tcMaybeCleanup st now).maxSize = st.maxSize := by
  unfold tcMaybeCleanup
  split <;> rfl

theorem tcMaybeCleanup_ttl {K V : Type} [DecidableEq K] (st : TCState K V)
    (now : Int) : (tcMaybeCleanup st now).ttl = st.ttl := by
  unfold tcMaybeCleanup
  split <;> rfl

theorem tcMaybeCleanup_cleanupInterval {K V : Type} [DecidableEq K] (st : TCState K V)
    (now : Int) : (tcMaybeCleanup st now).cleanupInterval = st.cleanupInterval := by
  unfold tcMaybeCleanup
  split <;> rfl

theorem tcMaybeCleanup_length_le {K V : Type} [DecidableEq K] (st : TCState K V)
    (now : Int) : (tcMaybeCleanup st now).cache.length ≤ st.cache.length := by
  unfold tcMaybeCleanup
  split
  · exact List.length_filter_le _ _
  · exact le_refl _

theorem tcEvict_maxSize {K V : Type} (st : TCState K V) :
    (tcEvict st).maxSize = st.maxSize := by
  unfold tcEvict
  split
  · split <;> rfl
  · rfl

theorem tcEvict_ttl {K V : Type} (st : TCState K V) :
    (tcEvict st).ttl = st.ttl := by
  unfold tcEvict
  split
  · split <;> rfl
  · rfl

theorem tcEvict_expires {K V : Type} (st : TCState K V) :
    (tcEvict st).expires = st.expires := by
  unfold tcEvict
  split
  · split <;> rfl
  · rfl

theorem tcEvict_lastCleanup {K V : Type} (st : TCState K V) :
    (tcEvict st).lastCleanup = st.lastCleanup := by
  unfold tcEvict
  split
  · split <;> rfl
  · rfl

theorem tcEvict_cleanupInterval {K V : Type} (st : TCState K V) :
    (tcEvict st).cleanupInterval = st.cleanupInterval := by
  unfold tcEvict
  split
  · split <;> rfl
  · rfl

theorem tcEvict_of_full {K V : Type} (st : TCState K V) {m : Nat}
    (hms : st.maxSize = some m) (hm : m ≠ 0) (hlen : m ≤ st.cache.length) :
    tcEvict st = { st with cache := st.cache.tail } := by
  unfold tcEvict
  simp only [hms]
  rw [if_pos ⟨hm, hlen⟩]

theorem tcEvict_of_no_bound {K V : Type} (st : TCState K V)
    (h : st.maxSize = some 0 ∨ st.maxSize = none) : tcEvict st = st := by
  unfold tcEvict
  rcases h with h | h <;> simp [h]

theorem tcEvict_length_lt {K V : Type} (st : TCState K V) {m : Nat}
    (hms : st.maxSize = some m) (hm : 0 < m) (hlen : st.cache.length ≤ m) :
    (tcEvict st).cache.length < m := by
  unfold tcEvict
  simp only [hms]
  by_cases hc : m ≠ 0 ∧ st.cache.length ≥ m
  · rw [if_pos hc]
    have hlen' : st.cache.length = m := le_antisymm hlen hc.2
    simp only [List.length_tail, hlen']
    omega
  · rw [if_neg hc]
    push_neg at hc
    exact hc (by omega)

theorem tcStore_maxSize {K V : Type} [DecidableEq K] (st : TCState K V) (k : K)
    (v : V) (ttlArg : Option Int) (now : Int) :
    (tcStore st k v ttlArg now).maxSize = st.maxSize :=
  rfl

theorem tcStore_lastCleanup {K V : Type} [DecidableEq K] (st : TCState K V) (k : K)
    (v : V) (ttlArg : Option Int) (now : Int) :
    (tcStore st k v ttlArg now).lastCleanup = st.lastCleanup :=
  rfl

theorem tcStore_cleanupInterval {K V : Type} [DecidableEq K] (st : TCState K V)
    (k : K) (v : V) (ttlArg : Option Int) (now : Int) :
    (tcStore st k v ttlArg now).cleanupInterval = st.cleanupInterval :=
  rfl

theorem tcSet_maxSize {K V : Type} [DecidableEq K] (st : TCState K V) (k : K) (v : V)
    (ttlArg : Option Int) (now : Int) : (tcSet st k v ttlArg now).maxSize = st.maxSize := by
  unfold tcSet
  rw [tcStore_maxSize, tcEvict_maxSize, tcMaybeCleanup_maxSize]

theorem tcSet_expires_self {K V : Type} [DecidableEq K] (st : TCState K V) (k : K)
    (v : V) (ttlArg : Option Int) (now : Int) :
    assocFind (tcSet st k v ttlArg now).expires k = some (now + ttlArg.getD st.ttl) := by
  unfold tcSet tcStore
  rw [assocFind_dictInsert_self, tcEvict_ttl, tcMaybeCleanup_ttl]

theorem tcSet_length_le {K V : Type} [DecidableEq K] (st : TCState K V) (k : K)
    (v : V) (ttlArg : Option Int) (now : Int) {m : Nat} (hms : st.maxSize = some m)
    (hm : 0 < m) (hlen : st.cache.length ≤ m) :
    (tcSet st k v ttlArg now).cache.length ≤ m := by
  have h1 : (tcMaybeCleanup st now).cache.length ≤ m :=
    le_trans (tcMaybeCleanup_length_le st now) hlen
  have h2 : (tcEvict (tcMaybeCleanup st now)).cache.length < m :=
    tcEvict_length_lt _ (by rw [tcMaybeCleanup_maxSize]; exact hms) hm h1
  have h3 := removeKey_length_le (tcEvict (tcMaybeCleanup st now)).cache k
  unfold tcSet tcStore
  simp only [List.length_append, List.length_cons, List.length_nil]
  omega

theorem tcApplySets_length_le {K V : Type} [DecidableEq K]
    (calls : List (K × V × Option Int × Int)) (st : TCState K V) {m : Nat}
    (hms : st.maxSize = some m) (hm : 0 < m) (hlen : st.cache.length ≤ m) :
    (tcApplySets st calls).cache.length ≤ m := by
  induction calls generalizing st with
  | nil => exact hlen
  | cons c rest ih =>
    obtain ⟨k, v, t, now⟩ := c
    exact ih _ (by rw [tcSet_maxSize]; exact hms)
      (tcSet_length_le st k v t now hms hm hlen)

theorem assocFind_dictSetdefault {K V : Type} [DecidableEq K] (l : List (K × V))
    (k : K) (d : V) :
    assocFind (dictSetdefault l k d) k = some ((assocFind l k).getD d) := by
  unfold dictSetdefault
  cases hf : assocFind l k with
  | some v => simp [hf]
  | none =>
    rw [assocFind_append_none _ hf, assocFind_cons]
    simp

theorem assocFind_dictSetdefault_ne {K V : Type} [DecidableEq K] (l : List (K × V))
    {k k' : K} (d : V) (h : k' ≠ k) :
    assocFind (dictSetdefault l k d) k' = assocFind l k' := by
  unfold dictSetdefault
  cases hf : assocFind l k with
  | some v => rfl
  | none =>
    cases hf' : assocFind l k' with
    | some v => exact assocFind_append_some _ hf'
    | none =>
      have hne : ¬ k = k' := fun hh => h hh.symm
      rw [assocFind_append_none _ hf', assocFind_cons]
      simp [hne, assocFind]

theorem nodup_append_singleton {a : Nat} {l : List Nat} (h : l.Nodup) (ha : a ∉ l) :
    (l ++ [a]).Nodup := by
  rw [List.nodup_append]
  refine ⟨h, List.nodup_singleton a, ?_⟩
  intro b hb hba
  exact ha ((List.mem_singleton.mp hba) ▸ hb)

theorem tcGet_expired_none {K V : Type} [DecidableEq K] (st : TCState K V) (k : K)
    (now : Int) (h : tcIsExpired st k now = true) :
    (tcGet st k now).2 = none ∧ assocFind (tcGet st k now).1.cache k = none := by
  by_cases hcl : now - st.lastCleanup ≥ st.cleanupInterval
  · have hst1 : tcMaybeCleanup st now = { (tcCleanup st now).1 with lastCleanup := now } := by
      unfold tcMaybeCleanup
      rw [if_pos hcl]
    have hnone : assocFind (tcMaybeCleanup st now).cache k = none := by
      rw [hst1]
      show assocFind (st.cache.filter _) k = none
      cases hf : assocFind st.cache k with
      | none => exact assocFind_filter_none _ hf
      | some v =>
        refine assocFind_filter_of_false _ (fun v' => ?_)
        have hmem : k ∈ ((st.cache.map Prod.fst).filter
            (fun k' => tcIsExpired st k' now)) :=
          List.mem_filter.mpr ⟨mem_keys_of_assocFind_some hf, h⟩
        exact decide_eq_false (not_not_intro hmem)
    constructor <;> simp [tcGet, hnone]
  · have hst1 : tcMaybeCleanup st now = st := tcMaybeCleanup_of_recent (not_le.mp hcl)
    cases hf : assocFind st.cache k with
    | none => constructor <;> simp [tcGet, hst1, hf]
    | some v =>
      constructor <;>
        simp [tcGet, hst1, hf, h, tcRemove, assocFind_removeKey_self]

/-! ### Lemmas about the vote-cast fragments -/

theorem castSkipVote_dup (st : PlayerVotes) (g u n : Nat)
    (hu : u ∈ (assocFind st.skipVotes g).getD []) :
    castSkipVote st g u n =
      ({ st with skipVotes := dictSetdefault st.skipVotes g [] },
        ⟨true, ((assocFind st.skipVotes g).getD []).length, false⟩) := by
  simp only [castSkipVote, assocFind_dictSetdefault, Option.getD_some]
  rw [if_pos hu]

theorem castPreviousVote_dup (st : PlayerVotes) (g u n : Nat)
    (hu : u ∈ (assocFind st.previousVotes g).getD []) :
    castPreviousVote st g u n =
      ({ st with previousVotes := dictSetdefault st.previousVotes g [] },
        ⟨true, ((assocFind st.previousVotes g).getD []).length, false⟩) := by
  simp only [castPreviousVote, assocFind_dictSetdefault, Option.getD_some]
  rw [if_pos hu]

theorem castSkipVote_fst_of_new (st : PlayerVotes) (g u n : Nat)
    (hu : u ∉ (assocFind st.skipVotes g).getD []) :
    (castSkipVote st g u n).1 =
      { st with skipVotes := (dictInsert (dictSetdefault st.skipVotes g []) g
          (((assocFind st.skipVotes g).getD []) ++ [u])) } := by
  simp only [castSkipVote, assocFind_dictSetdefault, Option.getD_some]
  rw [if_neg hu]
  split <;> rfl

theorem castPreviousVote_fst_of_new (st : PlayerVotes) (g u n : Nat)
    (hu : u ∉ (assocFind st.previousVotes g).getD []) :
    (castPreviousVote st g u n).1 =
      (if (((assocFind st.previousVotes g).getD []) ++ [u]).length ≥ n then
        { st with previousVotes := (dictInsert
            (dictInsert (dictSetdefault st.previousVotes g []) g
              (((assocFind st.previousVotes g).getD []) ++ [u])) g []) }
      else
        { st with previousVotes := (dictInsert (dictSetdefault st.previousVotes g []) g
            (((assocFind st.previousVotes g).getD []) ++ [u])) }) := by
  simp only [castPreviousVote, assocFind_dictSetdefault, Option.getD_some]
  rw [if_neg hu]
  split <;> rfl

/-- Reading a tally through a `setdefault(g, [])` leaves every tally
unchanged. -/
theorem getD_dictSetdefault_tally (l : List (Nat × List Nat)) (g g' : Nat) :
    (assocFind (dictSetdefault l g ([] : List Nat)) g').getD []
      = (assocFind l g').getD [] := by
  by_cases hg : g' = g
  · subst hg
    rw [assocFind_dictSetdefault]
    simp
  · rw [assocFind_dictSetdefault_ne _ _ hg]

theorem runCleanupCallbacks_count {E : Type} (cbs : List (Except E Unit)) :
    (runCleanupCallbacks cbs).1 = cbs.length := by
  induction cbs with
  | nil => rfl
  | cons cb rest ih =>
    simp only [runCleanupCallbacks, List.length_cons, ih]
    omega

theorem runCleanupCallbacks_errors {E : Type} (cbs : List (Except E Unit)) :
    (runCleanupCallbacks cbs).2 = cbs.filterMap
      (fun c => match c with | Except.error e => some e | Except.ok _ => none) := by
  induction cbs with
  | nil => rfl
  | cons cb rest ih =>
    cases cb with
    | ok _ => simp [runCleanupCallbacks, runOneCallback, List.filterMap_cons, ih]
    | error e => simp [runCleanupCallbacks, runOneCallback, List.filterMap_cons, ih]

/-! ### Claim theorems -/

/-- Claim C1 (code-bug evidence).  With quorum 2 in guild 1, the
quorum-reaching skip vote takes the threshold branch but leaves the tally
`[(1, [10, 20])]` in place, so a later vote by user 10 reports "already
voted" instead of starting a fresh tally at count 1; the previous-track
path, in contrast, resets its tally on quorum and a later vote by user 10
starts fresh at count 1. -/
theorem skip_tally_persists_after_quorum :
    ((castSkipVote (castSkipVote emptyVotes 1 10 2).1 1 20 2).2.thresholdMet = true
      ∧ (castSkipVote (castSkipVote emptyVotes 1 10 2).1 1 20 2).1.skipVotes
          = [(1, [10, 20])])
    ∧ (castSkipVote (castSkipVote (castSkipVote emptyVotes 1 10 2).1 1 20 2).1 1 10 2).2
        = ⟨true, 2, false⟩
    ∧ ((castPreviousVote (castPreviousVote emptyVotes 1 10 2).1 1 20 2).2.thresholdMet
          = true
      ∧ (castPreviousVote (castPreviousVote emptyVotes 1 10 2).1 1 20 2).1.previousVotes
          = [(1, [])])
    ∧ (castPreviousVote (castPreviousVote (castPreviousVote emptyVotes 1 10 2).1
        1 20 2).1 1 10 2).2 = ⟨false, 1, false⟩ := by
  decide

/-- Claim C2 (code-bug evidence).  `set("k", 7, expire=10)` at time 0
records the expiration time 10, yet `get("k")` at time 100 still returns 7
because the expiry check reads the stored float as an insertion timestamp
(`100 - 10 <= 3600`); the class's own `cleanup_expired` at the same instant
removes the entry as expired (`100 > 10`). -/
theorem cm_get_returns_entry_past_recorded_expiry :
    cmExpiredDemo.cache = [("k", 7, 10)]
    ∧ (cmGet cmExpiredDemo "k" (none : Option (Except Unit Nat)) 100 100).2
        = Except.ok (some 7)
    ∧ ((10 : Int) < 100)
    ∧ (cmCleanupExpired cmExpiredDemo 100).cache = [] := by
  refine ⟨by decide, rfl, by decide, by decide⟩

/-- Claim C3 (counterexample).  `CacheManager.set("k", 7, expire=0)` at
time 0 falls back to the default TTL (`expire or self._ttl`), so the very
next `get("k")` at time 1 still returns the value instead of treating the
entry as absent. -/
theorem cm_set_zero_ttl_entry_still_returned :
    (cmGet cmZeroTtlDemo "k" (none : Option (Except Unit Nat)) 1 1).2
      = Except.ok (some 7)
    ∧ (cmGet cmZeroTtlDemo "k" (none : Option (Except Unit Nat)) 1 1).2
      ≠ Except.ok none := by
  refine ⟨rfl, fun h => ?_⟩
  rw [show (cmGet cmZeroTtlDemo "k" (none : Option (Except Unit Nat)) 1 1).2
      = Except.ok (some 7) from rfl] at h
  exact Option.noConfusion (Except.ok.inj h)

/-- Claim C3 (amended).  Immediate expiry of non-positive TTLs holds for
`TTLCache`: after `set(k, v, ttl)` with `ttl <= 0`, any later `get(k)`
treats the entry as absent (returns `None` and leaves no entry for `k` in
the value map).  `CacheManager.set` with a TTL of `0`, in contrast, behaves
exactly as `set` without a TTL argument, storing under the default TTL. -/
theorem ttl_nonpos_expires_immediately_amended :
    (∀ (K V : Type) [inst : DecidableEq K] (st : TCState K V) (k : K) (v : V)
      (t tset tget : Int), t ≤ 0 → tset ≤ tget →
        (tcGet (tcSet st k v (some t) tset) k tget).2 = none
        ∧ assocFind (tcGet (tcSet st k v (some t) tset) k tget).1.cache k = none)
    ∧ (∀ (V : Type) (st : CMState V) (k : String) (v : V) (now : Int),
        cmSet st k v (some 0) now = cmSet st k v none now) := by
  constructor
  · intro K V inst st k v t tset tget ht hts
    apply tcGet_expired_none
    unfold tcIsExpired
    rw [tcSet_expires_self]
    simp only [Option.getD_some]
    exact decide_eq_true (by omega)
  · intro V st k v now
    rfl

/-- Witness for the amended claim C3 at a concrete input. -/
theorem ttl_nonpos_expires_immediately_amended_witness :
    (tcGet (tcSet (tcInit String Nat 300 (some 10) 60 0) "k" 1 (some 0) 0) "k" 0).2
      = none :=
  (ttl_nonpos_expires_immediately_amended.1 String Nat
    (tcInit String Nat 300 (some 10) 60 0) "k" 1 0 0 0 (by decide) (by decide)).1

/-- Claim C4 (counterexample).  A `TTLCache` with `max_size=0` is not a
no-op cache: after `set("a",1); set("b",2)` it holds 2 entries and
`get("a")` hits. -/
theorem ttlcache_maxsize_zero_not_noop :
    tcSize tcZeroMaxDemo = 2 ∧ tcSize tcZeroMaxDemo ≠ 0
    ∧ (tcGet tcZeroMaxDemo "a" 0).2 = some 1
    ∧ (tcGet tcZeroMaxDemo "a" 0).2 ≠ none := by
  decide

/-- Claim C4 (amended).  `max_size=0` disables the size bound entirely: the
falsy eviction guard is skipped, so `set` stores exactly as an unbounded
(`max_size=None`) cache does — the same equation for the resulting value
map holds in both cases, and no entry is ever evicted. -/
theorem maxsize_zero_disables_bound :
    ∀ (K V : Type) [inst : DecidableEq K] (st : TCState K V) (k : K) (v : V)
      (ttlArg : Option Int) (now : Int),
      st.maxSize = some 0 ∨ st.maxSize = none →
      (tcSet st k v ttlArg now).cache
        = removeKey (tcMaybeCleanup st now).cache k ++ [(k, v)] := by
  intro K V inst st k v ttlArg now h
  have hms : (tcMaybeCleanup st now).maxSize = some 0
      ∨ (tcMaybeCleanup st now).maxSize = none := by
    rw [tcMaybeCleanup_maxSize]
    exact h
  unfold tcSet tcStore
  rw [tcEvict_of_no_bound _ hms]

/-- Witness for the amended claim C4 at a concrete input. -/
theorem maxsize_zero_disables_bound_witness :
    (tcSet (tcInit String Nat 300 (some 0) 60 0) "a" 1 none 0).cache
      = removeKey (tcMaybeCleanup (tcInit String Nat 300 (some 0) 60 0) 0).cache "a"
          ++ [("a", 1)] :=
  maxsize_zero_disables_bound String Nat (tcInit String Nat 300 (some 0) 60 0)
    "a" 1 none 0 (Or.inl rfl)

/-- Claim C5.  For every `max_size = m > 0`, after any sequence of `set`
calls on a fresh `TTLCache` the number of entries never exceeds `m`. -/
theorem cache_size_le_maxsize {K V : Type} [DecidableEq K] (m : Nat) (hm : 0 < m)
    (ttl cleanupInterval t0 : Int) (calls : List (K × V × Option Int × Int)) :
    tcSize (tcApplySets (tcInit K V ttl (some m) cleanupInterval t0) calls) ≤ m :=
  tcApplySets_length_le calls _ rfl hm (Nat.zero_le m)

/-- Witness for claim C5 at a concrete input. -/
theorem cache_size_le_maxsize_witness :
    0 < 1 ∧ tcSize (tcApplySets (tcInit String Nat 300 (some 1) 60 0)
      [("a", 1, none, 0), ("b", 2, none, 0)]) ≤ 1 :=
  ⟨by decide, cache_size_le_maxsize 1 (by decide) 300 60 0 _⟩

/-- Claim C6.  When `CacheManager.get(key, fetcher)` finds no live entry for
`key` (absent or stale under the `get`-side check) and the fetcher fails,
the failure propagates unchanged, no entry is stored for `key`, bindings of
other keys are untouched, and a later `get(key)` without a fetcher returns
`None`. -/
theorem fetcher_failure_propagates_nothing_cached {V E : Type} (st : CMState V)
    (k : String) (e : E) (t0 t1 : Int)
    (hstale : ∀ v ts, assocFind st.cache k = some (v, ts) → st.ttl < t0 - ts) :
    (cmGet st k (some (Except.error e)) t0 t1).2 = Except.error e
    ∧ assocFind (cmGet st k (some (Except.error e)) t0 t1).1.cache k = none
    ∧ (∀ k', k' ≠ k →
        assocFind (cmGet st k (some (Except.error e)) t0 t1).1.cache k'
          = assocFind st.cache k')
    ∧ ∀ (t2 t3 : Int),
        (cmGet (cmGet st k (some (Except.error e)) t0 t1).1 k
          (none : Option (Except E V)) t2 t3).2 = Except.ok none := by
  cases hf : assocFind st.cache k with
  | none =>
    have hget : cmGet st k (some (Except.error e)) t0 t1
        = ({ st with misses := st.misses + 1 }, Except.error e) := by
      simp [cmGet, hf, cmGetMiss]
    refine ⟨by rw [hget], by rw [hget]; exact hf, ?_, ?_⟩
    · intro k' hk'
      rw [hget]
    · intro t2 t3
      rw [hget]
      simp [cmGet, hf, cmGetMiss]
  | some p =>
    obtain ⟨v, ts⟩ := p
    have hexp : ¬ (t0 - ts ≤ st.ttl) := not_le.mpr (hstale v ts hf)
    have hget : cmGet st k (some (Except.error e)) t0 t1
        = ({ st with cache := removeKey st.cache k, misses := st.misses + 1 },
            Except.error e) := by
      simp [cmGet, hf, hexp, cmGetMiss]
    refine ⟨by rw [hget], ?_, ?_, ?_⟩
    · rw [hget]
      exact assocFind_removeKey_self _ _
    · intro k' hk'
      rw [hget]
      exact assocFind_removeKey_ne _ hk'
    · intro t2 t3
      rw [hget]
      simp [cmGet, assocFind_removeKey_self, cmGetMiss]

/-- Witness for claim C6 at a concrete input. -/
theorem fetcher_failure_propagates_nothing_cached_witness :
    (cmGet (cmInit Nat 10 3600) "x" (some (Except.error ())) 5 5).2
      = Except.error ()
    ∧ (cmGet (cmGet (cmInit Nat 10 3600) "x" (some (Except.error ())) 5 5).1 "x"
        (none : Option (Except Unit Nat)) 6 6).2 = Except.ok none := by
  have h := fetcher_failure_propagates_nothing_cached (cmInit Nat 10 3600) "x" () 5 5
    (fun v ts hh => by simp [cmInit, assocFind] at hh)
  exact ⟨h.1, h.2.2.2 6 6⟩

/-- Claim C7.  With `max_size=2`, the sequence `set(a,1); set(b,2); get(a);
set(c,3)` evicts exactly `b` (the remaining keys are `a` and `c`), after
which `get(a) = 1`, `get(c) = 3` and `get(b)` misses, all before any TTL
elapses. -/
theorem lru_eviction_order_scenario :
    tcLruDemo.cache.map Prod.fst = ["a", "c"]
    ∧ (tcGet tcLruDemo "b" 0).2 = none
    ∧ (tcGet tcLruDemo "a" 0).2 = some 1
    ∧ (tcGet tcLruDemo "c" 0).2 = some 3 := by
  decide

/-- Claim C9.  The cleanup phase of a timed task is best-effort: every
cleanup callback runs (their number equals the list length) no matter which
of them fail, the logged errors are exactly the failures in order, and the
task's own outcome — what the completion handler sees — is independent of
the cleanup callbacks, so a failing cleanup step never changes or kills the
surrounding scheduling. -/
theorem cleanup_callbacks_best_effort {E : Type}
    (attempts cbs : List (Except E Unit)) :
    (runTimedTask attempts cbs).2.1 = cbs.length
    ∧ (runTimedTask attempts cbs).2.2 = cbs.filterMap
        (fun c => match c with | Except.error e => some e | Except.ok _ => none)
    ∧ ∀ cbs' : List (Except E Unit),
        (runTimedTask attempts cbs).1 = (runTimedTask attempts cbs').1 :=
  ⟨runCleanupCallbacks_count cbs, runCleanupCallbacks_errors cbs, fun _ => rfl⟩

/-- Claim C8.  For both vote kinds: a vote by a user already in the
(guild, kind) tally reports "already voted", changes no tally and triggers
no resolution; and every vote preserves the invariant that a user id
appears at most once per tally. -/
theorem duplicate_vote_is_noop (kind : VoteKind) (st : PlayerVotes)
    (g u needed : Nat) :
    (u ∈ tallyOf st kind g →
      (castVote kind st g u needed).2
        = VoteOutcome.mk true (tallyOf st kind g).length false
      ∧ ∀ kind' g', tallyOf (castVote kind st g u needed).1 kind' g'
          = tallyOf st kind' g')
    ∧ (∀ kind' g', (tallyOf st kind' g').Nodup →
        (tallyOf (castVote kind st g u needed).1 kind' g').Nodup) := by
  cases kind with
  | skip =>
    have hcv : castVote VoteKind.skip st g u needed = castSkipVote st g u needed := rfl
    constructor
    · intro hu
      have hdup := castSkipVote_dup st g u needed hu
      constructor
      · rw [hcv, hdup]
        rfl
      · intro kind' g'
        rw [hcv, hdup]
        cases kind' with
        | skip => exact getD_dictSetdefault_tally st.skipVotes g g'
        | previous => rfl
    · intro kind' g' hnd
      by_cases hu : u ∈ (assocFind st.skipVotes g).getD []
      · have hdup := castSkipVote_dup st g u needed hu
        rw [hcv, hdup]
        cases kind' with
        | skip =>
          show ((assocFind (dictSetdefault st.skipVotes g []) g').getD []).Nodup
          rw [getD_dictSetdefault_tally]
          exact hnd
        | previous => exact hnd
      · have hnew := castSkipVote_fst_of_new st g u needed hu
        rw [hcv, hnew]
        cases kind' with
        | previous => exact hnd
        | skip =>
          show ((assocFind (dictInsert (dictSetdefault st.skipVotes g []) g
            (((assocFind st.skipVotes g).getD []) ++ [u])) g').getD []).Nodup
          by_cases hg : g' = g
          · subst hg
            rw [assocFind_dictInsert_self]
            exact nodup_append_singleton hnd hu
          · rw [assocFind_dictInsert_ne _ _ hg, assocFind_dictSetdefault_ne _ _ hg]
            exact hnd
  | previous =>
    have hcv : castVote VoteKind.previous st g u needed
        = castPreviousVote st g u needed := rfl
    constructor
    · intro hu
      have hdup := castPreviousVote_dup st g u needed hu
      constructor
      · rw [hcv, hdup]
        rfl
      · intro kind' g'
        rw [hcv, hdup]
        cases kind' with
        | previous => exact getD_dictSetdefault_tally st.previousVotes g g'
        | skip => rfl
    · intro kind' g' hnd
      by_cases hu : u ∈ (assocFind st.previousVotes g).getD []
      · have hdup := castPreviousVote_dup st g u needed hu
        rw [hcv, hdup]
        cases kind' with
        | previous =>
          show ((assocFind (dictSetdefault st.previousVotes g []) g').getD []).Nodup
          rw [getD_dictSetdefault_tally]
          exact hnd
        | skip => exact hnd
      · have hnew := castPreviousVote_fst_of_new st g u needed hu
        rw [hcv, hnew]
        cases kind' with
        | skip =>
          split <;> exact hnd
        | previous =>
          split
          · show ((assocFind (dictInsert (dictInsert
              (dictSetdefault st.previousVotes g [])
              g (((assocFind st.previousVotes g).getD []) ++ [u])) g []) g').getD []).Nodup
            by_cases hg : g' = g
            · subst hg
              rw [assocFind_dictInsert_self]
              exact List.nodup_nil
            · rw [assocFind_dictInsert_ne _ _ hg, assocFind_dictInsert_ne _ _ hg,
                assocFind_dictSetdefault_ne _ _ hg]
              exact hnd
          · show ((assocFind (dictInsert (dictSetdefault st.previousVotes g []) g
              (((assocFind st.previousVotes g).getD []) ++ [u])) g').getD []).Nodup
            by_cases hg : g' = g
            · subst hg
              rw [assocFind_dictInsert_self]
              exact nodup_append_singleton hnd hu
            · rw [assocFind_dictInsert_ne _ _ hg, assocFind_dictSetdefault_ne _ _ hg]
              exact hnd

/-- Witness for claim C8 at a concrete input. -/
theorem duplicate_vote_is_noop_witness :
    (castVote VoteKind.skip dupVoteDemo 1 5 3).2 = VoteOutcome.mk true 1 false
    ∧ (tallyOf (castVote VoteKind.skip dupVoteDemo 1 5 3).1 VoteKind.skip 1).Nodup := by
  have h := duplicate_vote_is_noop VoteKind.skip dupVoteDemo 1 5 3
  exact ⟨(h.1 (by decide)).1, h.2 VoteKind.skip 1 (by decide)⟩

/-- Claim C10.  When a `set` at capacity evicts the least-recently-used key
`k₀` (here under a quiet cleanup window), `k₀` disappears from the value map
but its entry in the expiry map survives: `get_ttl(k₀)` still reports a
positive remaining TTL while `get(k₀)` returns the default, and the expiry
map grows past `max_size`. -/
theorem evicted_key_retains_expiry_entry {K V : Type} [DecidableEq K]
    (st : TCState K V) (m : Nat) (k₀ : K) (v₀ : V) (rest : List (K × V))
    (k : K) (v : V) (ttlArg : Option Int) (now now2 e : Int)
    (hms : st.maxSize = some m) (hm : m ≠ 0)
    (hcache : st.cache = (k₀, v₀) :: rest)
    (hlen : m ≤ st.cache.length)
    (hnd : k₀ ∉ rest.map Prod.fst)
    (hk : k₀ ≠ k)
    (hnc : now - st.lastCleanup < st.cleanupInterval)
    (hnc2 : now2 - st.lastCleanup < st.cleanupInterval)
    (he : assocFind st.expires k₀ = some e)
    (hlive : now2 < e)
    (hkE : assocFind st.expires k = none)
    (hlenE : m ≤ st.expires.length) :
    assocFind (tcSet st k v ttlArg now).cache k₀ = none
    ∧ assocFind (tcSet st k v ttlArg now).expires k₀ = some e
    ∧ tcGetTtl (tcSet st k v ttlArg now) k₀ now2 = some (e - now2)
    ∧ 0 < e - now2
    ∧ (tcGet (tcSet st k v ttlArg now) k₀ now2).2 = none
    ∧ m < (tcSet st k v ttlArg now).expires.length := by
  have hmc : tcMaybeCleanup st now = st := tcMaybeCleanup_of_recent hnc
  have hev : tcEvict st = { st with cache := st.cache.tail } :=
    tcEvict_of_full st hms hm hlen
  have hset : tcSet st k v ttlArg now
      = { st with cache := removeKey st.cache.tail k ++ [(k, v)],
                  expires := dictInsert st.expires k (now + ttlArg.getD st.ttl) } := by
    unfold tcSet tcStore
    rw [hmc, hev]
  have htail : st.cache.tail = rest := by
    rw [hcache, List.tail_cons]
  have hne : ¬ k = k₀ := fun hh => hk hh.symm
  have ha : assocFind (tcSet st k v ttlArg now).cache k₀ = none := by
    rw [hset]
    show assocFind (removeKey st.cache.tail k ++ [(k, v)]) k₀ = none
    rw [htail]
    have h1 : assocFind (removeKey rest k) k₀ = none := by
      rw [assocFind_removeKey_ne _ hk]
      exact assocFind_of_not_mem_keys hnd
    rw [assocFind_append_none _ h1, assocFind_cons]
    simp [hne, assocFind]
  have hb : assocFind (tcSet st k v ttlArg now).expires k₀ = some e := by
    rw [hset]
    show assocFind (dictInsert st.expires k (now + ttlArg.getD st.ttl)) k₀ = some e
    rw [assocFind_dictInsert_ne _ _ hk]
    exact he
  have hc : tcGetTtl (tcSet st k v ttlArg now) k₀ now2 = some (e - now2) := by
    unfold tcGetTtl
    rw [hb]
    have hpos : e - now2 > 0 := by omega
    simp only [hpos, if_true]
    rw [max_eq_right (by omega : (0 : Int) ≤ e - now2)]
  have hd : (tcGet (tcSet st k v ttlArg now) k₀ now2).2 = none := by
    have hlc : (tcSet st k v ttlArg now).lastCleanup = st.lastCleanup := by
      rw [hset]
    have hci : (tcSet st k v ttlArg now).cleanupInterval = st.cleanupInterval := by
      rw [hset]
    have hmc2 : tcMaybeCleanup (tcSet st k v ttlArg now) now2
        = tcSet st k v ttlArg now :=
      tcMaybeCleanup_of_recent (by rw [hlc, hci]; exact hnc2)
    simp [tcGet, hmc2, ha]
  have hgrow : m < (tcSet st k v ttlArg now).expires.length := by
    rw [hset]
    show m < (dictInsert st.expires k (now + ttlArg.getD st.ttl)).length
    rw [dictInsert_of_absent _ hkE]
    simp only [List.length_append, List.length_cons, List.length_nil]
    omega
  exact ⟨ha, hb, hc, by omega, hd, hgrow⟩

/-- Witness for claim C10 at a concrete input. -/
theorem evicted_key_retains_expiry_entry_witness :
    assocFind (tcSet tcEvictDemo "b" 2 none 0).cache "a" = none
    ∧ assocFind (tcSet tcEvictDemo "b" 2 none 0).expires "a" = some 300
    ∧ tcGetTtl (tcSet tcEvictDemo "b" 2 none 0) "a" 10 = some 290
    ∧ (0 : Int) < 290
    ∧ (tcGet (tcSet tcEvictDemo "b" 2 none 0) "a" 10).2 = none
    ∧ 1 < (tcSet tcEvictDemo "b" 2 none 0).expires.length := by
  have h := evicted_key_retains_expiry_entry tcEvictDemo 1 "a" 1 [] "b" 2 none 0 10 300
    (by decide) (by decide) (by decide) (by decide) (by decide) (by decide)
    (by decide) (by decide) (by decide) (by decide) (by decide) (by decide)
  exact ⟨h.1, h.2.1, h.2.2.1, h.2.2.2.1, h.2.2.2.2.1, h.2.2.2.2.2⟩

end Boult
